import Mathlib

/-!
Verification development for the crypto-risk-profiling pipeline.

Each section embeds one Python component of the repository as Lean
definitions (floats become exact rationals `ℚ`, fallible calls become
`Option`/`Except`, databases become explicit record states), and proves
or refutes the specified properties about those definitions.
-/

namespace Rrp


/-!
## String primitives
Executable counterparts of the Python string methods used by the embedded
code (`str.strip`, `str.lower`, `str.upper`, `c in s`), defined over the
character list of a `String` so that concrete instances evaluate by `decide`.
-/

/-- Python `s.strip()`: drop leading and trailing whitespace. -/
def strTrim (s : String) : String :=
  ⟨((s.data.dropWhile (fun c => c.isWhitespace)).reverse.dropWhile
      (fun c => c.isWhitespace)).reverse⟩

/-- Python `c in s` for a single character. -/
def strContainsChar (s : String) (c : Char) : Bool :=
  s.data.contains c

/-- Python `s.lower()`. -/
def strLower (s : String) : String := ⟨s.data.map Char.toLower⟩

/-- Python `s.upper()`. -/
def strUpper (s : String) : String := ⟨s.data.map Char.toUpper⟩

/-!
## Ensemble adjudicator
Embeds `features/llm/infrastructure/ensemble_client.py`.
-/

/-- State of the raw `sentiment` field of one client's response, as seen by
`EnsembleClient._normalize_vote`: absent (`None`), a value on which Python's
`float(...)` succeeds (carried exactly as a rational), or a non-null value on
which `float(...)` raises. -/
inductive RawSent where
  | null : RawSent
  | num (q : ℚ) : RawSent
  | notnum : RawSent
deriving DecidableEq

/-- A raw per-client vote as consumed by `_normalize_vote`: the Python
truthiness of the `relevance` field, the state of the `sentiment` field, and
the optional `summary` string. -/
structure RawVote where
  relevanceTruthy : Bool
  sentiment : RawSent
  summary : Option String
deriving DecidableEq

/-- A normalized vote, the result of `EnsembleClient._normalize_vote`. -/
structure NVote where
  model : String
  relevance : Bool
  sentiment : Option ℚ
  summary : String
deriving DecidableEq

/-- Round a rational to the nearest integer, ties to the even integer
(the behaviour of Python's built-in `round` on exact values). -/
def roundHalfEven (q : ℚ) : ℤ :=
  let f := ⌊q⌋
  let frac := q - (f : ℚ)
  if frac < 1/2 then f
  else if 1/2 < frac then f + 1
  else if f % 2 = 0 then f else f + 1

/-- Python `round(s, 2)` on an exact rational. -/
def round2 (q : ℚ) : ℚ := (roundHalfEven (100 * q) : ℚ) / 100

/-- `max(-1.0, min(1.0, s))` from `_normalize_vote`. -/
def clamp11 (s : ℚ) : ℚ := max (-1) (min 1 s)

/-- `EnsembleClient._normalize_vote(raw, model)`: coerce `relevance` through
`bool(...)`, convert the sentiment via `float(...)` with `0.0` substituted when
the conversion raises, clamp to `[-1, 1]`, round to two decimals, and trim the
summary with `""` for a missing one. -/
def normalizeVote (raw : RawVote) (model : String) : NVote :=
  let sentiment : Option ℚ :=
    match raw.sentiment with
    | RawSent.null => none
    | RawSent.num q => some (round2 (clamp11 q))
    | RawSent.notnum => some (round2 (clamp11 0))
  { model := model
    relevance := raw.relevanceTruthy
    sentiment := sentiment
    summary := strTrim (raw.summary.getD "") }

/-- Count of `true` relevance votes (`trues` in `_aggregate_relevance`). -/
def trueCount (votes : List NVote) : ℕ :=
  (votes.filter (fun v => v.relevance)).length

/-- Count of `false` relevance votes (`falses = len(votes) - trues`). -/
def falseCount (votes : List NVote) : ℕ :=
  votes.length - trueCount votes

/-- `EnsembleClient._aggregate_relevance`: empty vote list yields
`(False, [])`; otherwise majority with ties to `True`, paired with the list of
relevant votes. -/
def aggregateRelevance (votes : List NVote) : Bool × List NVote :=
  if votes.isEmpty then (false, [])
  else
    let trues := trueCount votes
    let falses := votes.length - trues
    (decide (falses ≤ trues), votes.filter (fun v => v.relevance))

/-- `EnsembleClient._aggregate_sentiment`: the exact arithmetic mean of the
non-null per-vote sentiments, `None` when there is none. -/
def aggregateSentiment (votes : List NVote) : Option ℚ :=
  let ss := votes.filterMap (fun v => v.sentiment)
  if ss.isEmpty then none else some (ss.sum / (ss.length : ℚ))

/-!
## Boolean search query
Embeds `features/news/infrastructure/search_query.py` and the quoting helper
of `features/news/application/news_query_builder.py`.
-/

/-- `QuerySpec` from `search_query.py`. -/
structure QuerySpec where
  asset_symbol : String
  aliases : List String
  require_crypto_context : Bool
  extra_positive_terms : List String
  negative_terms : List String
  min_token_quote_len : Nat
deriving DecidableEq

/-- Recursion of `_norm_terms`, carrying the `seen` set of lowercased keys. -/
def normTermsGo (seen : List String) : List String → List String
  | [] => []
  | t :: rest =>
    let t := strTrim t
    if t = "" ∨ seen.contains (strLower t) then normTermsGo seen rest
    else t :: normTermsGo (strLower t :: seen) rest

/-- `_norm_terms`: trim, drop empties, dedupe case-insensitively keeping the
first occurrence. -/
def normTerms (ts : List String) : List String := normTermsGo [] ts

/-- `_render_term`: quote a term iff it contains a blank; short tokens such as
BTC or SOL stay bare. (The `min_quote_len` parameter of the Python function is
unused by its body.) -/
def renderTerm (t : String) : String :=
  let t := strTrim t
  if t = "" then ""
  else if strContainsChar t ' ' then "\"" ++ t ++ "\""
  else t

/-- `_symbol_synonyms`: the symbol in original, upper and lower case, plus the
well-known long name for BTC/ETH/DOT/SOL, deduplicated. -/
def symbolSynonyms (symbol : String) : List String :=
  let sym := strTrim symbol
  if sym = "" then []
  else
    let out := [sym, strUpper sym, strLower sym]
    let out := if strUpper sym = "BTC" then out ++ ["Bitcoin"] else out
    let out := if strUpper sym = "ETH" then out ++ ["Ethereum"] else out
    let out := if strUpper sym = "DOT" then out ++ ["Polkadot"] else out
    let out := if strUpper sym = "SOL" then out ++ ["Solana"] else out
    normTerms out

/-- The crypto-context block of `build_boolean_core`. -/
def cryptoContextTerms : List String :=
  ["crypto", "cryptocurrency", "blockchain", "token", "defi", "nft"]

/-- The inner `or_block` of `build_boolean_core`: `None` for no renderable
term, the bare rendering for one, a parenthesized `OR`-join for several. -/
def orBlock (terms : List String) : Option String :=
  if terms.isEmpty then none
  else
    match (terms.map renderTerm).filter (fun r => r ≠ "") with
    | [] => none
    | [r] => some r
    | rs => some ("(" ++ String.intercalate " OR " rs ++ ")")

/-- `build_boolean_core`: `POSITIVES [AND CONTEXT] [AND EXTRA] [AND NOT
NEGATIVES]`, falling back to the rendered symbol when no block applies. -/
def buildBooleanCore (spec : QuerySpec) : String :=
  let positives := normTerms
    (symbolSynonyms spec.asset_symbol ++ spec.aliases ++ spec.extra_positive_terms)
  let cryptoCtx := if spec.require_crypto_context then cryptoContextTerms else []
  let negatives := normTerms spec.negative_terms
  let parts : List String :=
    (match orBlock positives with | some p => [p] | none => []) ++
    (match orBlock cryptoCtx with | some c => [c] | none => []) ++
    (if spec.extra_positive_terms.isEmpty then []
     else match orBlock spec.extra_positive_terms with
          | some e => [e] | none => []) ++
    (match orBlock negatives with | some n => ["NOT " ++ n] | none => [])
  let parts := if parts.isEmpty then [renderTerm spec.asset_symbol] else parts
  String.intercalate " AND " parts

/-- The single-word proper names of `news_query_builder.py`, lowercased. -/
def properSingleWords : List String :=
  ["bitcoin", "ethereum", "polkadot", "solana"]

/-- `_quote_if_phrase_or_proper` from `news_query_builder.py`: quotes phrases
and the known proper names. This helper is referenced only by the unused
`NewsQueryBuilder._or_block`; the rendered query goes through `_render_term`. -/
def quoteIfPhraseOrProper (term : String) : String :=
  let t := strTrim term
  if t = "" then ""
  else if strContainsChar t ' ' then "\"" ++ t ++ "\""
  else if properSingleWords.contains (strLower t) then "\"" ++ t ++ "\""
  else t

/-- The spec's claim that the term rendering used in the rendered boolean
query double-quotes every known single-word proper name. -/
def RenderQuotesProperNames : Prop :=
  ∀ t : String, strTrim t ≠ "" →
    properSingleWords.contains (strLower (strTrim t)) = true →
    renderTerm t = "\"" ++ strTrim t ++ "\""

/-!
## GDELT adapter
Embeds `features/news/infrastructure/gdelt_client.py`. Instants are UTC
seconds since an epoch (all datetimes in the model are timezone-aware UTC, so
`astimezone(utc)` is the identity); the per-slice HTTP request is an oracle
from the bucket day to `none` (failed / non-JSON response, skipped by the
code) or the returned article items.
-/

/-- Seconds per UTC day. -/
def daySecs : ℕ := 86400

/-- `_floor_day_utc`: midnight of the UTC day containing `t`. -/
def floorDayUtc (t : ℕ) : ℕ := daySecs * (t / daySecs)

/-- `_daily_ranges_utc_full_days`: one `(query_start, query_end, day_start)`
slice per whole UTC day from `floor(start)` inclusive to `floor(stop)`
exclusive, with `query_start = max start day` and
`query_end = min stop (day + 1 day)`; the Python `while` loop stepping `day`
by one day is rendered as a map over the day indices. -/
def dailyRangesUtcFullDays (start stop : ℕ) : List (ℕ × ℕ × ℕ) :=
  let sDay := floorDayUtc start
  let eDay := floorDayUtc stop
  if eDay ≤ sDay then []
  else
    (List.range ((eDay - sDay) / daySecs)).filterMap (fun i =>
      let day := sDay + i * daySecs
      let qStart := max start day
      let qEnd := min stop (day + daySecs)
      if qStart < qEnd then some (qStart, qEnd, day) else none)

/-- One article item of a GDELT JSON response, reduced to the fields the
adapter reads (`url` stands for the url / DocumentIdentifier fallback chain). -/
structure GdeltItem where
  url : String
  title : String
deriving DecidableEq

/-- One document produced by `GdeltClient.fetch_documents`. -/
structure GdeltDoc where
  url : String
  title : String
  source : String
  published_at : ℕ
deriving DecidableEq

/-- The per-day item loop of `fetch_documents`: stop at the per-day limit,
skip blank and already-seen urls, and stamp every document with the bucket's
day start as `published_at`. -/
def processDayItems (perDayLimit : ℕ) (batchDayStart : ℕ) :
    List GdeltItem → List String → ℕ → List GdeltDoc
  | [], _, _ => []
  | item :: rest, seen, cnt =>
    if perDayLimit ≤ cnt then []
    else
      let url := strTrim item.url
      if url = "" ∨ seen.contains url then
        processDayItems perDayLimit batchDayStart rest seen cnt
      else
        { url := url, title := strTrim item.title, source := "gdelt",
          published_at := batchDayStart }
          :: processDayItems perDayLimit batchDayStart rest (url :: seen) (cnt + 1)

/-- `GdeltClient.fetch_documents`: empty for a future range, otherwise the
concatenation of the per-day-slice results, each item list coming from the
response oracle (`none` = failed slice, skipped). -/
def fetchDocuments (now start stop limit : ℕ)
    (resp : ℕ → Option (List GdeltItem)) : List GdeltDoc :=
  if now < start ∨ now < stop then []
  else
    let perDayLimit := max 1 limit
    (dailyRangesUtcFullDays start stop).flatMap (fun s =>
      match resp s.2.2 with
      | none => []
      | some items => processDayItems perDayLimit s.2.2 items [] 0)

/-- The spec's claim on GDELT documents: `published_at` is a whole-day bucket
start with buckets from `floor(start)` inclusive to `floor(stop)` exclusive,
and lies inside the requested window `[start, stop]`. -/
def ClaimGdeltWindow : Prop :=
  ∀ (now start stop limit : ℕ) (resp : ℕ → Option (List GdeltItem))
    (doc : GdeltDoc), doc ∈ fetchDocuments now start stop limit resp →
    daySecs ∣ doc.published_at ∧
    floorDayUtc start ≤ doc.published_at ∧ doc.published_at < floorDayUtc stop ∧
    start ≤ doc.published_at ∧ doc.published_at ≤ stop

/-!
## Persistence model
One record models the DuckDB file as seen through
`DuckDBNewsRepository` and `DuckDBLLMRepository`: the four tables the claims
touch, plus the surrogate-id sequence for `summarized_articles`. Timestamps
are UTC instants (`ℤ` seconds); `_to_utc_naive` is the identity on them.
-/

/-- One `url_harvests` (inbox) row. -/
structure InboxRow where
  id : ℕ
  url : String
  asset : String
  source : Option String
  published_at : Option ℤ
  title : Option String
  discovered_at : ℤ
deriving DecidableEq

/-- One `summarized_articles` row. -/
structure SummaryRow where
  id : ℕ
  url : String
  asset : String
  summary : String
  source : Option String
  model : String
  sentiment : Option ℚ
  published_at : ℤ
deriving DecidableEq

/-- One `rejections` row. -/
structure RejectionRow where
  url : String
  asset : String
  reason : String
  source : Option String
  context : String
  model : Option String
deriving DecidableEq

/-- One `llm_votes` row. -/
structure VoteRow where
  url : Option String
  asset : String
  model : String
  relevance : Bool
  sentiment : Option ℚ
  summary : Option String
  harvest_id : ℕ
  article_id : Option ℕ
deriving DecidableEq

/-- The database state. -/
structure Db where
  summarized : List SummaryRow
  rejections : List RejectionRow
  votes : List VoteRow
  inbox : List InboxRow
  nextArticleId : ℕ
deriving DecidableEq

/-- `DuckDBNewsRepository.save_url_harvest`: check summarized, then (only on a
miss) rejections, then the inbox, and insert only when all three miss.
`freshId` is the id the `RETURNING id` of the insert would produce, `nowTs`
the `discovered_at` timestamp. -/
def saveUrlHarvest (db : Db) (url asset : String) (source : Option String)
    (published_at : Option ℤ) (title : Option String) (freshId : ℕ)
    (nowTs : ℤ) : (ℕ × Bool) × Db :=
  if db.summarized.any (fun r => decide (r.url = url ∧ r.asset = asset)) then
    ((0, true), db)
  else if db.rejections.any (fun r => decide (r.url = url ∧ r.asset = asset)) then
    ((0, true), db)
  else
    match db.inbox.find? (fun r => decide (r.url = url ∧ r.asset = asset)) with
    | some row => ((row.id, true), db)
    | none =>
      let row : InboxRow :=
        ⟨freshId, url, asset, source, published_at, title, nowTs⟩
      ((freshId, false), { db with inbox := db.inbox ++ [row] })

/-!
## Summarize-Harvest use case
Embeds `features/llm/application/usecases/summarize_harvest.py`
(`SummarizeHarvest.process_batch`, sequential path, `dry_run=False`) over the
persistence model, with the repository calls of
`duckdb_llm_repository.py` / `duckdb_news_repository.py` as store updates.
Each repository call opens its own auto-committing connection in the source,
so a call either applies its insert/delete or raises; the oracle `fail`
says which calls raise. The LLM call itself precedes every effect (a failure
there reaches the `except` with the store untouched) and is taken as already
returned (`ai`); the best-effort domain-stat update swallows its errors and
touches none of these tables.
-/

/-- A Python value fed to `SummarizeHarvest._to_bool_strict`. -/
inductive PyVal where
  | null : PyVal
  | bool (b : Bool) : PyVal
  | num (q : ℚ) : PyVal
  | str (s : String) : PyVal
deriving DecidableEq

/-- `_to_bool_strict`: `None` for undetermined values, the fixed truthy/falsy
string sets, non-zero-true for numbers. -/
def toBoolStrict : PyVal → Option Bool
  | PyVal.null => Option.none
  | PyVal.bool b => some b
  | PyVal.num q => some (decide (q ≠ 0))
  | PyVal.str s =>
    let t := strLower (strTrim s)
    if ["true", "1", "yes", "y", "ja"].contains t then some true
    else if ["false", "0", "no", "n", "nein"].contains t then some false
    else Option.none

/-- One entry of the adjudication payload's `votes` list. -/
structure AiVote where
  model : Option String
  relevance : PyVal
  sentiment : Option ℚ
  summary : Option String
deriving DecidableEq

/-- The adjudication payload returned by the LLM port for one candidate. -/
structure AiResult where
  relevance : PyVal
  sentiment : Option ℚ
  summary : Option String
  votes : List AiVote
deriving DecidableEq

/-- One fetched inbox row as handed to the per-candidate loop. -/
structure Candidate where
  id : ℕ
  url : String
  source : Option String
  published_at : Option ℤ
  title : Option String
  discovered_at : Option ℤ
deriving DecidableEq

/-- The fallible repository calls of one candidate's processing. -/
inductive RepoOp where
  | saveSummary : RepoOp
  | saveRejection : RepoOp
  | saveVote (idx : ℕ) : RepoOp
  | deleteInbox : RepoOp
deriving DecidableEq

/-- `SummarizeHarvest._make_article`: published-at falls back to
discovered-at and then to now; the sentiment is rounded to two decimals. -/
def makeArticle (h : Candidate) (asset : String) (ai : AiResult)
    (modelName : String) (nowTs : ℤ) (articleId : ℕ) : SummaryRow :=
  { id := articleId
    url := h.url
    asset := asset
    summary := strTrim (ai.summary.getD "")
    source := h.source
    model := modelName
    sentiment := ai.sentiment.map round2
    published_at := h.published_at.getD (h.discovered_at.getD nowTs) }

/-- `SummarizedArticle.__post_init__` (`domain/models.py`): a non-null
sentiment outside `[-1, 1]` raises. -/
def articleSentimentOk (s : Option ℚ) : Bool :=
  match s with
  | Option.none => true
  | some q => decide (-1 ≤ q ∧ q ≤ 1)

/-- The `llm_votes` row written for one per-client vote: linked to the url
only when no article was stored, always carrying the originating harvest id. -/
def mkVoteRow (asset url : String) (harvestId : ℕ) (articleId : Option ℕ)
    (v : AiVote) : VoteRow :=
  { url := match articleId with | some _ => Option.none | Option.none => some url
    asset := asset
    model := match v.model with
      | some s => if s = "" then "unknown" else s
      | Option.none => "unknown"
    relevance := decide (toBoolStrict v.relevance = some true)
    sentiment := v.sentiment.map round2
    summary := v.summary
    harvest_id := harvestId
    article_id := articleId }

/-- The `for v in ai["votes"]` loop: one `save_vote` per vote, aborting the
candidate at the first raising call (later votes are not attempted). -/
def saveVotesLoop (fail : RepoOp → Bool) (asset url : String) (harvestId : ℕ)
    (articleId : Option ℕ) : Db → ℕ → List AiVote → Db × Bool
  | db, _, [] => (db, false)
  | db, idx, v :: rest =>
    if fail (RepoOp.saveVote idx) then (db, true)
    else
      saveVotesLoop fail asset url harvestId articleId
        { db with votes := db.votes ++ [mkVoteRow asset url harvestId articleId v] }
        (idx + 1) rest

/-- The tail of one candidate's processing, after the summary/rejection
insert committed into `db1`: the votes loop, then the inbox delete. -/
def finishCandidate (fail : RepoOp → Bool) (db1 : Db) (articleId : Option ℕ)
    (asset : String) (h : Candidate) (ai : AiResult) : Db × Bool :=
  if (saveVotesLoop fail asset h.url h.id articleId db1 0 ai.votes).2 then
    ((saveVotesLoop fail asset h.url h.id articleId db1 0 ai.votes).1, true)
  else if fail RepoOp.deleteInbox then
    ((saveVotesLoop fail asset h.url h.id articleId db1 0 ai.votes).1, true)
  else
    ({ (saveVotesLoop fail asset h.url h.id articleId db1 0 ai.votes).1 with
        inbox := (saveVotesLoop fail asset h.url h.id articleId db1
          0 ai.votes).1.inbox.filter (fun r => decide (r.id ≠ h.id)) }, false)

/-- One iteration of `process_batch` for one candidate, `dry_run=False`:
summary or rejection, then the votes, then the inbox delete, each step only
reached when the previous ones committed; any raising call leaves the loop
through the candidate's `except`, which counts the candidate as an error
(second component `true`). -/
def processCandidate (fail : RepoOp → Bool) (db : Db) (asset : String)
    (h : Candidate) (ai : AiResult) (modelName : String) (nowTs : ℤ) :
    Db × Bool :=
  if toBoolStrict ai.relevance = some true then
    if articleSentimentOk (ai.sentiment.map round2) = false then (db, true)
    else if fail RepoOp.saveSummary then (db, true)
    else
      finishCandidate fail
        { db with
          summarized := db.summarized ++
            [makeArticle h asset ai modelName nowTs db.nextArticleId],
          nextArticleId := db.nextArticleId + 1 }
        (some db.nextArticleId) asset h ai
  else
    if fail RepoOp.saveRejection then (db, true)
    else
      finishCandidate fail
        { db with rejections := db.rejections ++
          [⟨h.url, asset, "no_asset_relation", h.source, "summarize",
            some "ensemble"⟩] }
        Option.none asset h ai

/-- The spec's per-candidate atomicity: when the candidate is counted as an
error, its persisted state is unchanged (left as-is for retry). -/
def ClaimCandidateAtomic : Prop :=
  ∀ (fail : RepoOp → Bool) (db : Db) (asset : String) (h : Candidate)
    (ai : AiResult) (modelName : String) (nowTs : ℤ),
    (processCandidate fail db asset h ai modelName nowTs).2 = true →
    (processCandidate fail db asset h ai modelName nowTs).1 = db

/-- A one-row inbox store for the C1 scenario. -/
def c1Db : Db :=
  ⟨[], [], [], [⟨1, "u", "BTC", Option.none, Option.none, Option.none, 0⟩], 1⟩

/-- The C1 scenario's candidate. -/
def c1Cand : Candidate :=
  ⟨1, "u", Option.none, Option.none, Option.none, Option.none⟩

/-- The C1 scenario's adjudication payload: relevant, one vote, null
sentiments. -/
def c1Ai : AiResult :=
  ⟨PyVal.bool true, Option.none, some "s",
    [⟨some "m", PyVal.bool true, Option.none, some "s"⟩]⟩

/-!
## Factor engine
Embeds `features/market/application/usecases/compute_market_factors.py`.
Floats are exact rationals; the square root used by `statistics.pstdev` and
by `** 0.5` is an opaque parameter `sqrt : ℚ → ℚ` (the real square root is
irrational on most inputs), and the fractional power `base ** beta` of the
evidence weights is an opaque parameter `pw`. Theorems assume of `sqrt` only
properties the real square root has.
-/

/-- `statistics.mean` on rationals. -/
def meanQ (xs : List ℚ) : ℚ := xs.sum / (xs.length : ℚ)

/-- The population variance underlying `statistics.pstdev`. -/
def pvarianceQ (xs : List ℚ) : ℚ :=
  ((xs.map (fun x => (x - meanQ xs) ^ 2)).sum) / (xs.length : ℚ)

/-- `statistics.pstdev` with the square root abstracted. -/
def pstdevQ (sqrt : ℚ → ℚ) (xs : List ℚ) : ℚ := sqrt (pvarianceQ xs)

/-- One buffer update of the rolling loops: append a non-null return, then
pop the front once when the buffer exceeds the window
(`if len(buf) > window: buf.pop(0)`). -/
def stepBuf (window : ℤ) (buf : List ℚ) (r : Option ℚ) : List ℚ :=
  let b := match r with
    | some v => buf ++ [v]
    | Option.none => buf
  if (b.length : ℤ) > window then b.drop 1 else b

/-- The per-day vol_30d entry of `execute` (step 2):
`sd if sd != 0 else None` once the buffer holds at least two values, `None`
before that. -/
def volCell (sqrt : ℚ → ℚ) (b : List ℚ) : Option ℚ :=
  if 2 ≤ b.length then
    (if pstdevQ sqrt b ≠ 0 then some (pstdevQ sqrt b) else Option.none)
  else Option.none

/-- The per-day sharpe_30d entry of `execute` (step 2):
`mean/sd if sd not in (0, None) else None` (`sd` is never `None`). -/
def sharpeCell (sqrt : ℚ → ℚ) (b : List ℚ) : Option ℚ :=
  if 2 ≤ b.length then
    (if pstdevQ sqrt b ≠ 0 then some (meanQ b / pstdevQ sqrt b)
     else Option.none)
  else Option.none

/-- The vol/sharpe rolling loop of `ComputeMarketFactors.execute` (step 2). -/
def volSharpeGo (sqrt : ℚ → ℚ) (window : ℤ) :
    List ℚ → List (Option ℚ) → List (Option ℚ) × List (Option ℚ)
  | _, [] => ([], [])
  | buf, r :: rest =>
    let b := stepBuf window buf r
    let tail := volSharpeGo sqrt window b rest
    (volCell sqrt b :: tail.1, sharpeCell sqrt b :: tail.2)

/-- The vol_30d series of `execute` (initial buffer empty). -/
def volSeries (sqrt : ℚ → ℚ) (window : ℤ) (rets : List (Option ℚ)) :
    List (Option ℚ) :=
  (volSharpeGo sqrt window [] rets).1

/-- The last `n` elements of a list. -/
def lastN (n : ℕ) (xs : List α) : List α := xs.drop (xs.length - n)

/-- The trailing buffer the rolling loops hold after day `i`: the last
`window` non-null returns among days `0..i`. -/
def volBufferAt (window : ℤ) (rets : List (Option ℚ)) (i : ℕ) : List ℚ :=
  lastN window.toNat ((rets.take (i + 1)).filterMap id)

/-- The spec's claim on vol_30d: `pstdev(buffer)` whenever the buffer holds
at least two values, null otherwise (no zero carve-out). Quantified over any
square-root function agreeing with the real one at `0`. -/
def ClaimVolPstdev : Prop :=
  ∀ sqrt : ℚ → ℚ, sqrt 0 = 0 →
  ∀ (window : ℤ) (rets : List (Option ℚ)) (i : ℕ), i < rets.length →
    (volSeries sqrt window rets)[i]? =
      some (if 2 ≤ (volBufferAt window rets i).length
            then some (pstdevQ sqrt (volBufferAt window rets i))
            else Option.none)

/-- `ComputeMarketFactors._ema` body for a positive length: seed with the
first non-null value, carry the previous EMA across nulls. -/
def emaGo (k : ℚ) : Option ℚ → List (Option ℚ) → List (Option ℚ)
  | _, [] => []
  | acc, Option.none :: rest => acc :: emaGo k acc rest
  | acc, some v :: rest =>
    match acc with
    | Option.none => some v :: emaGo k (some v) rest
    | some e0 => some (e0 + k * (v - e0)) :: emaGo k (some (e0 + k * (v - e0))) rest

/-- `_ema`: raises (`Except.error`) for a non-positive length, with
`k = 2/(length+1)` otherwise. -/
def emaSeries (length : ℤ) (series : List (Option ℚ)) :
    Except String (List (Option ℚ)) :=
  if length ≤ 0 then Except.error "EMA length must be positive"
  else Except.ok (emaGo (2 / ((length : ℚ) + 1)) Option.none series)

/-- `_rolling_sortino`: `mean/downside-deviation` once the buffer has two
values and a negative return exists; null otherwise. -/
def sortinoGo (sqrt : ℚ → ℚ) (window : ℤ) :
    List ℚ → List (Option ℚ) → List (Option ℚ)
  | _, [] => []
  | buf, r :: rest =>
    let b := stepBuf window buf r
    let cell : Option ℚ :=
      if 2 ≤ b.length then
        let downs := b.map (fun x => min 0 x)
        if downs.all (fun d => decide (d = 0)) then Option.none
        else
          let sdDown := sqrt ((downs.map (fun d => d * d)).sum / (downs.length : ℚ))
          if sdDown ≠ 0 then some (meanQ b / sdDown) else Option.none
      else Option.none
    cell :: sortinoGo sqrt window b rest

/-- `_rolling_var95`: parametric `mu - 1.65·sd`, or the element at index
`int(0.05·(n-1))` of the sorted buffer for the empirical method. -/
def var95Go (sqrt : ℚ → ℚ) (window : ℤ) (emp : Bool) :
    List ℚ → List (Option ℚ) → List (Option ℚ)
  | _, [] => []
  | buf, r :: rest =>
    let b := stepBuf window buf r
    let cell : Option ℚ :=
      if 2 ≤ b.length then
        if emp then
          let xs := b.mergeSort (fun a b => decide (a ≤ b))
          match xs with
          | [] => Option.none
          | _ :: _ =>
            some (xs.getD (((1 : ℚ) / 20 * ((xs.length - 1 : ℕ) : ℚ)).floor.toNat) 0)
        else some (meanQ b - 33 / 20 * pstdevQ sqrt b)
      else Option.none
    cell :: var95Go sqrt window emp b rest

/-- Smallest element of a non-empty rational list (Python `min`). -/
def listMinQ (xs : List ℚ) : ℚ :=
  match xs with
  | [] => 0
  | x :: rest => rest.foldl min x

/-- Largest element of a non-empty rational list (Python `max`). -/
def listMaxQ (xs : List ℚ) : ℚ :=
  match xs with
  | [] => 0
  | x :: rest => rest.foldl max x

/-- `statistics.median` on rationals. -/
def medianQ (xs : List ℚ) : ℚ :=
  let s := xs.mergeSort (fun a b => decide (a ≤ b))
  let n := s.length
  if n = 0 then 0
  else if n % 2 = 1 then s.getD (n / 2) 0
  else (s.getD (n / 2 - 1) 0 + s.getD (n / 2) 0) / 2

/-- `ComputeMarketFactors._winsorize`: clip to the values at the
`int(alpha·(n-1))` / `int((1-alpha)·(n-1))` positions of the sorted buffer. -/
def winsorizeQ (values : List ℚ) (alpha : ℚ) : List ℚ :=
  if values.isEmpty ∨ alpha ≤ 0 then values
  else
    let xs := values.mergeSort (fun a b => decide (a ≤ b))
    let n := xs.length
    let loIdx := min (n - 1) (alpha * ((n : ℚ) - 1)).floor.toNat
    let hiIdx := min (n - 1) ((1 - alpha) * ((n : ℚ) - 1)).floor.toNat
    values.map (fun v => min (xs.getD hiIdx 0) (max (xs.getD loIdx 0) v))

/-- `ComputeMarketFactors._weighted_stats`: weight-weighted mean and standard
deviation over the pairs with positive weight. -/
def weightedStats (sqrt : ℚ → ℚ) (values weights : List ℚ) :
    Option ℚ × Option ℚ :=
  let pairs := (values.zip weights).filter (fun p => decide (0 < p.2))
  if pairs.length = 0 ∨ (pairs.map Prod.snd).sum ≤ 0 then
    (Option.none, Option.none)
  else
    let wSum := (pairs.map Prod.snd).sum
    let mu := ((pairs.map (fun p => p.1 * p.2)).sum) / wSum
    let var := ((pairs.map (fun p => p.2 * (p.1 - mu) * (p.1 - mu))).sum) / wSum
    (some mu, some (sqrt var))

/-- The loop of `ComputeMarketFactors._normalize_series`: rolling value (and
weight) buffers, then z-score / winsorized z-score / min-max per day. -/
def normalizeGo (sqrt : ℚ → ℚ) (window : ℤ) (method : String)
    (winsorAlpha : ℚ) (weights : Option (List (Option ℚ))) (minPoints : ℕ)
    (useW : Bool) :
    List ℚ → List ℚ → ℕ → List (Option ℚ) → List (Option ℚ)
  | _, _, _, [] => []
  | bufVals, bufWts, i, v :: rest =>
    let w : Option ℚ := match weights with
      | Option.none => Option.none
      | some ws => ws.getD i Option.none
    let bufValsA := match v with
      | some vv => bufVals ++ [vv]
      | Option.none => bufVals
    let bufWtsA := match v with
      | some _ =>
        if useW then
          bufWts ++ [match w with
            | some wv => if 0 < wv then wv else 0
            | Option.none => 0]
        else bufWts
      | Option.none => bufWts
    let bufVals2 := if (bufValsA.length : ℤ) > window then bufValsA.drop 1
      else bufValsA
    let bufWts2 := if (bufValsA.length : ℤ) > window then
        (if useW ∧ ¬ bufWtsA.isEmpty then bufWtsA.drop 1 else bufWtsA)
      else bufWtsA
    let cell : Option ℚ :=
      if minPoints ≤ bufVals2.length then
        if method = "minmax" then
          match v with
          | Option.none => Option.none
          | some vv =>
            if listMinQ bufVals2 = listMaxQ bufVals2 then Option.none
            else some ((vv - listMinQ bufVals2)
              / (listMaxQ bufVals2 - listMinQ bufVals2) * 2 - 1)
        else
          let vals := if method = "winsor" then winsorizeQ bufVals2 winsorAlpha
            else bufVals2
          if useW then
            match weightedStats sqrt vals bufWts2, v with
            | (some mu, some sd), some vv =>
              if sd = 0 then Option.none
              else
                some (((if method = "winsor"
                        then min (listMaxQ vals) (max vv (listMinQ vals))
                        else vv) - mu) / sd)
            | _, _ => Option.none
          else
            match v with
            | some vv =>
              if pstdevQ sqrt vals ≠ 0 then
                some (((if method = "winsor"
                        then min (listMaxQ vals) (max vv (listMinQ vals))
                        else vv) - meanQ vals) / pstdevQ sqrt vals)
              else Option.none
            | Option.none => Option.none
      else Option.none
    cell :: normalizeGo sqrt window method winsorAlpha weights minPoints useW
      bufVals2 bufWts2 (i + 1) rest

/-- `_normalize_series`: weights participate only for the zscore and winsor
methods. -/
def normalizeSeries (sqrt : ℚ → ℚ) (series : List (Option ℚ)) (window : ℤ)
    (method : String) (winsorAlpha : ℚ) (weights : Option (List (Option ℚ)))
    (minPoints : ℕ) : List (Option ℚ) :=
  normalizeGo sqrt window method winsorAlpha weights minPoints
    (weights.isSome && (decide (method = "zscore") || decide (method = "winsor")))
    [] [] 0 series

/-- `_build_article_weights_counts`: the per-day article count as weight. -/
def buildArticleWeightsCounts (stats : ℤ → ℕ) (days : List ℤ) :
    List (Option ℚ) :=
  days.map (fun d => some ((stats d : ℚ)))

/-- `_build_article_weights_normed`:
`w(t) = min((N/median_pos(N))^beta, cap)`, weight 0 on days without
articles; the fractional power is the opaque `pw`. -/
def buildArticleWeightsNormed (pw : ℚ → ℚ → ℚ) (beta cap : ℚ)
    (stats : ℤ → ℕ) (days : List ℤ) : List (Option ℚ) :=
  let ns := days.map (fun d => ((stats d : ℚ)))
  let pos := ns.filter (fun x => decide (0 < x))
  let med := if pos.isEmpty then 0 else medianQ pos
  ns.map (fun n =>
    if n ≤ 0 then some 0
    else some (min (pw (if 0 < med then n / med else 1) beta) cap))

/-- Step 7 of `execute`: the Pα combination, day by day over the two
normalized series. -/
def pAlphaSeries (alpha : ℚ) (ern sn : List (Option ℚ)) : List (Option ℚ) :=
  List.zipWith (fun er s =>
    match er, s with
    | Option.none, Option.none => Option.none
    | Option.none, some y => some y
    | some x, Option.none => some x
    | some x, some y => some ((1 - alpha) * x + alpha * y)) ern sn

/-!
## Domain value objects and the execute pipeline
`domain/models.py` validating constructors (`__post_init__` raising becomes
`Except.error`), and `ComputeMarketFactors.execute` assembled from the
helpers above over explicitly passed repository reads.
-/

/-- `models.SentimentDecision`. -/
structure SentimentDecision where
  label : String
  score : ℚ
  confidence : Option ℚ
  summary : Option String
  model : String
deriving DecidableEq

/-- `SentimentDecision.__post_init__`: score must lie in `[-1, 1]`. -/
def mkSentimentDecision (label : String) (score : ℚ) (confidence : Option ℚ)
    (summary : Option String) (model : String) :
    Except String SentimentDecision :=
  if -1 ≤ score ∧ score ≤ 1 then
    Except.ok ⟨label, score, confidence, summary, model⟩
  else Except.error "Sentiment score must be in [-1, 1]"

/-- `models.RelevanceDecision`. -/
structure RelevanceDecision where
  is_relevant : Bool
  score : ℚ
  reason : String
  model : String
deriving DecidableEq

/-- `RelevanceDecision.__post_init__`: score must lie in `[0, 1]`. -/
def mkRelevanceDecision (is_relevant : Bool) (score : ℚ) (reason : String)
    (model : String) : Except String RelevanceDecision :=
  if 0 ≤ score ∧ score ≤ 1 then
    Except.ok ⟨is_relevant, score, reason, model⟩
  else Except.error "Relevance score must be in [0, 1]"

/-- `models.SummarizedArticle` (the domain value object). -/
structure SummarizedArticleModel where
  url : String
  summary : String
  asset_symbol : String
  source : Option String
  model : String
  sentiment : Option ℚ
  published_at : Option ℤ
  ingested_at : Option ℤ
deriving DecidableEq

/-- `SummarizedArticle.__post_init__`: a non-null sentiment must lie in
`[-1, 1]`. -/
def mkSummarizedArticleModel (url summary asset_symbol : String)
    (source : Option String) (model : String) (sentiment : Option ℚ)
    (published_at ingested_at : Option ℤ) :
    Except String SummarizedArticleModel :=
  if articleSentimentOk sentiment then
    Except.ok ⟨url, summary, asset_symbol, source, model, sentiment,
      published_at, ingested_at⟩
  else Except.error "Sentiment must be in [-1, 1]"

/-- `models.POmegaScore`. -/
structure POmegaScore where
  quantitative_score : ℚ
  sentiment_score : ℚ
  omega : ℚ
  integrated_value : ℚ
deriving DecidableEq

/-- `POmegaScore.__post_init__`: omega must lie in `[0, 1]`; the integrated
value is overwritten with `(1-ω)·quant + ω·sent` whatever was passed. -/
def mkPOmegaScore (quantitative_score sentiment_score omega
    _integrated_value : ℚ) : Except String POmegaScore :=
  if 0 ≤ omega ∧ omega ≤ 1 then
    Except.ok ⟨quantitative_score, sentiment_score, omega,
      (1 - omega) * quantitative_score + omega * sentiment_score⟩
  else Except.error "Omega must be in [0, 1]"

/-- Configuration of `ComputeMarketFactors.__init__` (strings stored
lowercased, as the constructor does). -/
structure FactorsConfig where
  window_vol : ℤ
  window_sent : ℤ
  ema_len : ℤ
  norm_method : String
  winsor_alpha : ℚ
  var_method : String
  sentiment_weight : String
  article_weight_beta : ℚ
  article_weight_cap : ℚ
deriving DecidableEq

/-- One `MarketFactorsDaily` row assembled in step 8 of `execute`. -/
structure FactorsRow where
  asset_symbol : String
  day : ℤ
  ret_1d : Option ℚ
  vol_30d : Option ℚ
  sharpe_30d : Option ℚ
  exp_return_30d : Option ℚ
  sentiment_mean : Option ℚ
  sentiment_norm : Option ℚ
  p_alpha : Option ℚ
  alpha : ℚ
  sortino_30d : Option ℚ
  var_1d_95 : Option ℚ
deriving DecidableEq

/-- The sentiment series of step 5: the weighted view for `domain_weight`,
the plain daily view otherwise (repository reads passed as maps; the
`hasattr`/fallback paths assume a repository providing the views). -/
def sentSeriesFor (cfg : FactorsConfig) (days : List ℤ)
    (sentMap sentWeightedMap : ℤ → Option ℚ) : List (Option ℚ) :=
  if cfg.sentiment_weight = "domain_weight" then days.map sentWeightedMap
  else days.map sentMap

/-- The weight series of step 5: normed evidence weights for
`domain_weight`, raw counts for `count`, none otherwise. -/
def weightsFor (pw : ℚ → ℚ → ℚ) (cfg : FactorsConfig) (days : List ℤ)
    (statsMap : ℤ → ℕ) : Option (List (Option ℚ)) :=
  if cfg.sentiment_weight = "domain_weight" then
    some (buildArticleWeightsNormed pw cfg.article_weight_beta
      cfg.article_weight_cap statsMap days)
  else if cfg.sentiment_weight = "count" then
    some (buildArticleWeightsCounts statsMap days)
  else Option.none

/-- Steps 2-8 of `ComputeMarketFactors.execute` for a positive EMA length:
rolling risk, EMA, sentiment normalization, Pα, and row assembly. -/
def executeFactorsRows (sqrt : ℚ → ℚ) (pw : ℚ → ℚ → ℚ) (cfg : FactorsConfig)
    (asset : String) (returns : List (ℤ × Option ℚ))
    (sentMap sentWeightedMap : ℤ → Option ℚ) (statsMap : ℤ → ℕ)
    (alpha : ℚ) : List FactorsRow :=
  let days := returns.map Prod.fst
  let retVals := returns.map Prod.snd
  let vs := volSharpeGo sqrt cfg.window_vol [] retVals
  let sortino30 := sortinoGo sqrt cfg.window_vol [] retVals
  let var95 := var95Go sqrt cfg.window_vol (decide (cfg.var_method = "emp95"))
    [] retVals
  let expReturn := emaGo (2 / ((cfg.ema_len : ℚ) + 1)) Option.none retVals
  let sentimentMean := sentSeriesFor cfg days sentMap sentWeightedMap
  let weights := weightsFor pw cfg days statsMap
  let sentimentNorm := normalizeSeries sqrt sentimentMean cfg.window_sent
    cfg.norm_method cfg.winsor_alpha weights 2
  let expReturnNorm := normalizeSeries sqrt expReturn cfg.window_sent
    "zscore" cfg.winsor_alpha Option.none 2
  let pAlpha := pAlphaSeries alpha expReturnNorm sentimentNorm
  (List.range days.length).map (fun i =>
    { asset_symbol := asset
      day := days.getD i 0
      ret_1d := (retVals.getD i Option.none)
      vol_30d := vs.1.getD i Option.none
      sharpe_30d := vs.2.getD i Option.none
      exp_return_30d := expReturn.getD i Option.none
      sentiment_mean := sentimentMean.getD i Option.none
      sentiment_norm := sentimentNorm.getD i Option.none
      p_alpha := pAlpha.getD i Option.none
      alpha := alpha
      sortino_30d := sortino30.getD i Option.none
      var_1d_95 := var95.getD i Option.none })

/-- `ComputeMarketFactors.execute` (persistence elided): the only raising
path of the computation is `_ema` on a non-positive length; no input —
`alpha` included — is range-checked anywhere. -/
def executeFactors (sqrt : ℚ → ℚ) (pw : ℚ → ℚ → ℚ) (cfg : FactorsConfig)
    (asset : String) (returns : List (ℤ × Option ℚ))
    (sentMap sentWeightedMap : ℤ → Option ℚ) (statsMap : ℤ → ℕ)
    (alpha : ℚ) : Except String (List FactorsRow) :=
  if cfg.ema_len ≤ 0 then Except.error "EMA length must be positive"
  else Except.ok (executeFactorsRows sqrt pw cfg asset returns sentMap
    sentWeightedMap statsMap alpha)

/-- The spec's claim, specialized to the factor computation: `execute`
validates its `alpha` blend weight, so a successful run only ever persists
rows whose alpha lies in `[0, 1]`. -/
def ClaimAlphaValidated : Prop :=
  ∀ (sqrt : ℚ → ℚ) (pw : ℚ → ℚ → ℚ) (cfg : FactorsConfig) (asset : String)
    (returns : List (ℤ × Option ℚ)) (sentMap sentWeightedMap : ℤ → Option ℚ)
    (statsMap : ℤ → ℕ) (alpha : ℚ) (rows : List FactorsRow),
    executeFactors sqrt pw cfg asset returns sentMap sentWeightedMap statsMap
      alpha = Except.ok rows →
    ∀ row ∈ rows, 0 ≤ row.alpha ∧ row.alpha ≤ 1

/-- The default configuration of `ComputeMarketFactors.__init__`. -/
def defaultFactorsConfig : FactorsConfig :=
  ⟨30, 90, 30, "zscore", 1/20, "param95", "none", 1/2, 3⟩

/-!
## Theorems
The claims settled against the embedding above, each preceded by its claim
id, with the supporting lemmas in dependency order.
-/

/-- C3: the ensemble's aggregated relevance is `true` exactly when the vote
list is non-empty and the count of `true` votes is at least the count of
`false` votes; in particular a tie yields `true` and the empty vote list
yields `false`. -/
theorem aggregateRelevance_majority (votes : List NVote) :
    ((aggregateRelevance votes).1 = true ↔
      votes ≠ [] ∧ falseCount votes ≤ trueCount votes) ∧
    (aggregateRelevance ([] : List NVote)).1 = false := by
  refine ⟨?_, by simp [aggregateRelevance]⟩
  unfold aggregateRelevance falseCount
  by_cases h : votes.isEmpty = true
  · simp [h, List.isEmpty_iff.mp h]
  · have hne : votes ≠ [] := by simpa [List.isEmpty_iff] using h
    simp [h, hne]

/-- Witness for C3 on a concrete tie: two votes `(true, false)` aggregate to
`true`. -/
theorem aggregateRelevance_majority_witness :
    (aggregateRelevance
      [⟨"a", true, none, ""⟩, ⟨"b", false, none, ""⟩]).1 = true :=
  (aggregateRelevance_majority
    [⟨"a", true, none, ""⟩, ⟨"b", false, none, ""⟩]).1.mpr
    ⟨by decide, by decide⟩

/-- C8: the ensemble's aggregated sentiment is `none` exactly when every
vote's sentiment is null (in particular for the empty vote list), and is
otherwise the exact arithmetic mean (sum divided by count, no rounding) of
the non-null per-vote sentiments. -/
theorem aggregateSentiment_mean (votes : List NVote) :
    (aggregateSentiment votes = none ↔ ∀ v ∈ votes, v.sentiment = none) ∧
    (votes.filterMap (fun v => v.sentiment) ≠ [] →
      aggregateSentiment votes =
        some ((votes.filterMap (fun v => v.sentiment)).sum /
          ((votes.filterMap (fun v => v.sentiment)).length : ℚ))) := by
  constructor
  · unfold aggregateSentiment
    by_cases h : (votes.filterMap (fun v => v.sentiment)).isEmpty = true
    · rw [if_pos h]
      rw [List.isEmpty_iff, List.filterMap_eq_nil_iff] at h
      exact iff_of_true rfl h
    · rw [if_neg h]
      rw [List.isEmpty_iff, ← Ne] at h
      constructor
      · intro hc; cases hc
      · intro hall
        exact absurd (List.filterMap_eq_nil_iff.mpr hall) h
  · intro h
    unfold aggregateSentiment
    simp [List.isEmpty_iff, h]

/-- Witness for C8: votes with sentiments `0.33` and `0.32` average to the
exact, unrounded mean `0.325`. -/
theorem aggregateSentiment_mean_witness :
    aggregateSentiment
      [⟨"a", true, some (33/100), ""⟩, ⟨"b", false, some (32/100), ""⟩]
      = some (325/1000) := by
  have h :=
    (aggregateSentiment_mean
      [⟨"a", true, some (33/100), ""⟩, ⟨"b", false, some (32/100), ""⟩]).2
      (by decide)
  rw [h]
  simp only [List.filterMap_cons, List.filterMap_nil]
  norm_num

/-- C10: a raw vote whose sentiment field is present but unconvertible is
normalized to sentiment `0.0` (the clamped, two-decimal-rounded substitute),
not to null, and therefore enters the aggregated mean with value `0` — it
enlarges the denominator instead of being excluded. -/
theorem normalizeVote_unparsable_sentiment (raw : RawVote) (model : String)
    (h : raw.sentiment = RawSent.notnum) :
    (normalizeVote raw model).sentiment = some 0 ∧
    ∀ rest : List NVote,
      aggregateSentiment (normalizeVote raw model :: rest) =
        some ((rest.filterMap (fun v => v.sentiment)).sum /
          (((rest.filterMap (fun v => v.sentiment)).length : ℚ) + 1)) := by
  have hs : (normalizeVote raw model).sentiment = some 0 := by
    simp [normalizeVote, h, clamp11, round2, roundHalfEven]
  refine ⟨hs, fun rest => ?_⟩
  unfold aggregateSentiment
  simp only [List.filterMap_cons, hs, List.isEmpty_iff]
  have : ¬((0 : ℚ) :: rest.filterMap (fun v => v.sentiment)) = [] := by simp
  simp only [this, if_false, List.sum_cons, List.length_cons, zero_add]
  congr 1
  push_cast
  ring_nf

/-- Witness for C10: an unconvertible sentiment next to a single `1.0` vote
yields mean `1/2`, not `1`. -/
theorem normalizeVote_unparsable_sentiment_witness :
    (normalizeVote ⟨true, RawSent.notnum, none⟩ "m").sentiment = some 0 ∧
    aggregateSentiment
      [normalizeVote ⟨true, RawSent.notnum, none⟩ "m", ⟨"b", true, some 1, ""⟩]
      = some (1 / 2) := by
  have h := normalizeVote_unparsable_sentiment ⟨true, RawSent.notnum, none⟩ "m" rfl
  refine ⟨h.1, ?_⟩
  have h2 := h.2 [⟨"b", true, some 1, ""⟩]
  rw [h2]
  simp only [List.filterMap_cons, List.filterMap_nil]
  norm_num

set_option maxRecDepth 8000 in
/-- C9 counterexample: the rendering used for the boolean query leaves the
proper name `Solana` unquoted — `_render_term "Solana" = "Solana"` — and the
full rendered query for SOL contains `Solana` bare (one occurrence, none
quoted), refuting the proper-name-quoting part of the claim. -/
theorem buildBooleanCore_solana_unquoted :
    ¬ RenderQuotesProperNames ∧
    renderTerm "Solana" = "Solana" ∧
    buildBooleanCore ⟨"SOL", [], true, [], [], 4⟩ =
      "(SOL OR Solana) AND (crypto OR cryptocurrency OR blockchain OR token OR defi OR nft)" ∧
    "Solana".data <:+: (buildBooleanCore ⟨"SOL", [], true, [], [], 4⟩).data ∧
    ¬ ("\"Solana\"".data <:+: (buildBooleanCore ⟨"SOL", [], true, [], [], 4⟩).data) := by
  refine ⟨fun h => ?_, by decide, by decide, by decide, by decide⟩
  have := h "Solana" (by decide) (by decide)
  revert this
  decide

/-- C9 amended: in the rendered boolean query, multi-word positive or negative
terms are double-quoted and every single-word term — bare tickers *and* the
known proper names alike — is rendered unquoted; a single renderable term is
emitted bare and several become `(a OR b OR …)`. -/
theorem renderTerm_orBlock_spec :
    (∀ t : String, strTrim t ≠ "" → strContainsChar (strTrim t) ' ' = true →
      renderTerm t = "\"" ++ strTrim t ++ "\"") ∧
    (∀ t : String, strTrim t ≠ "" → strContainsChar (strTrim t) ' ' = false →
      renderTerm t = strTrim t) ∧
    (∀ ts : List String,
      ((ts.map renderTerm).filter (fun r => r ≠ "") = [] → orBlock ts = none) ∧
      (∀ r, (ts.map renderTerm).filter (fun r => r ≠ "") = [r] →
        orBlock ts = some r) ∧
      (∀ r s rs, (ts.map renderTerm).filter (fun r => r ≠ "") = r :: s :: rs →
        orBlock ts = some ("(" ++ String.intercalate " OR "
          (r :: s :: rs) ++ ")"))) := by
  refine ⟨fun t h1 h2 => ?_, fun t h1 h2 => ?_, fun ts => ⟨?_, ?_, ?_⟩⟩
  · simp only [renderTerm, h1, h2, if_false, if_true]
  · simp only [renderTerm, h1, h2, Bool.false_eq_true, if_false]
  · intro h
    cases hts : ts.isEmpty
    · simp only [orBlock, hts, Bool.false_eq_true, if_false, h]
    · simp [orBlock, hts]
  · intro r h
    have hts : ts.isEmpty = false := by
      cases ts with
      | nil => simp at h
      | cons a l => rfl
    simp only [orBlock, hts, Bool.false_eq_true, if_false, h]
  · intro r s rs h
    have hts : ts.isEmpty = false := by
      cases ts with
      | nil => simp at h
      | cons a l => rfl
    simp only [orBlock, hts, Bool.false_eq_true, if_false, h]

/-- Witness for C9's amended theorem at concrete terms: a phrase is quoted, a
ticker and a proper name stay bare, and a two-term block is parenthesized. -/
theorem renderTerm_orBlock_spec_witness :
    renderTerm "Solana Labs" = "\"Solana Labs\"" ∧
    renderTerm "BTC" = "BTC" ∧
    orBlock ["solar", "peru"] = some "(solar OR peru)" := by
  refine ⟨?_, ?_, ?_⟩
  · exact (renderTerm_orBlock_spec.1 "Solana Labs" (by decide) (by decide)).trans
      (by decide)
  · exact (renderTerm_orBlock_spec.2.1 "BTC" (by decide) (by decide)).trans
      (by decide)
  · exact ((renderTerm_orBlock_spec.2.2 ["solar", "peru"]).2.2 "solar" "peru" []
      (by decide)).trans (by decide)

/-- C4 counterexample: for the window `[12:00 day 0, 06:00 day 1]` the single
bucket is day 0 and its document carries `published_at = 00:00 day 0`, which
lies before the window's start — the claim's "inside the requested window"
part fails. -/
theorem fetchDocuments_published_before_start :
    fetchDocuments 864000 43200 108000 5 (fun _ => some [⟨"u", "t"⟩]) =
      [⟨"u", "t", "gdelt", 0⟩] ∧
    ¬ ClaimGdeltWindow := by
  refine ⟨by decide, fun h => ?_⟩
  have hm := h 864000 43200 108000 5 (fun _ => some [⟨"u", "t"⟩])
    ⟨"u", "t", "gdelt", 0⟩ (by decide)
  have : (43200 : ℕ) ≤ 0 := hm.2.2.2.1
  omega

theorem processDayItems_published_at (lim day : ℕ) :
    ∀ (items : List GdeltItem) (seen : List String) (cnt : ℕ)
      (doc : GdeltDoc), doc ∈ processDayItems lim day items seen cnt →
      doc.published_at = day := by
  intro items
  induction items with
  | nil => intro seen cnt doc hd; cases hd
  | cons item rest ih =>
    intro seen cnt doc hd
    rw [processDayItems] at hd
    by_cases hc : lim ≤ cnt
    · rw [if_pos hc] at hd; cases hd
    · rw [if_neg hc] at hd
      by_cases hu : strTrim item.url = "" ∨ seen.contains (strTrim item.url)
      · rw [if_pos hu] at hd
        exact ih seen cnt doc hd
      · rw [if_neg hu] at hd
        rcases List.mem_cons.mp hd with hd | hd
        · rw [hd]
        · exact ih _ _ doc hd

theorem dailyRanges_day_bounds (start stop : ℕ) (qs qe day : ℕ)
    (hmem : (qs, qe, day) ∈ dailyRangesUtcFullDays start stop) :
    daySecs ∣ day ∧ floorDayUtc start ≤ day ∧ day < floorDayUtc stop := by
  unfold dailyRangesUtcFullDays at hmem
  by_cases h : floorDayUtc stop ≤ floorDayUtc start
  · rw [if_pos h] at hmem; cases hmem
  · rw [if_neg h] at hmem
    rw [List.mem_filterMap] at hmem
    obtain ⟨i, hi, heq⟩ := hmem
    rw [List.mem_range] at hi
    by_cases hlt : max start (floorDayUtc start + i * daySecs)
        < min stop (floorDayUtc start + i * daySecs + daySecs)
    · rw [if_pos hlt] at heq
      simp only [Option.some.injEq, Prod.mk.injEq] at heq
      obtain ⟨h1, h2, h3⟩ := heq
      subst h3
      have hdvd : daySecs ∣ floorDayUtc start + i * daySecs :=
        dvd_add ⟨start / daySecs, rfl⟩ (dvd_mul_left daySecs i)
      have hD : 0 < daySecs := by decide
      have hsub : daySecs ∣ floorDayUtc stop - floorDayUtc start :=
        Nat.dvd_sub' ⟨stop / daySecs, rfl⟩ ⟨start / daySecs, rfl⟩
      have hiD : i * daySecs < floorDayUtc stop - floorDayUtc start := by
        rcases hsub with ⟨k, hk⟩
        rw [hk] at hi ⊢
        rw [Nat.mul_div_cancel_left k hD] at hi
        calc i * daySecs < (i + 1) * daySecs :=
              (Nat.mul_lt_mul_right hD).mpr (Nat.lt_succ_self i)
          _ ≤ daySecs * k := by
              rw [Nat.mul_comm daySecs k]
              exact Nat.mul_le_mul_right daySecs hi
      refine ⟨hdvd, Nat.le_add_right _ _, ?_⟩
      omega
    · rw [if_neg hlt] at heq; cases heq

/-- C4 amended: every document from the GDELT adapter carries a
`published_at` that is the 00:00:00Z start of a whole UTC day bucket, with
buckets from `floor-day(start)` inclusive to `floor-day(stop)` exclusive; such
a `published_at` always precedes the window's end but may precede `start`
itself by up to one day (`start < published_at + 1 day`). -/
theorem fetchDocuments_day_buckets (now start stop limit : ℕ)
    (resp : ℕ → Option (List GdeltItem)) (doc : GdeltDoc)
    (hd : doc ∈ fetchDocuments now start stop limit resp) :
    daySecs ∣ doc.published_at ∧
    floorDayUtc start ≤ doc.published_at ∧
    doc.published_at < floorDayUtc stop ∧
    doc.published_at < stop ∧
    start < doc.published_at + daySecs := by
  unfold fetchDocuments at hd
  by_cases hfut : now < start ∨ now < stop
  · rw [if_pos hfut] at hd; cases hd
  · rw [if_neg hfut] at hd
    simp only [List.mem_flatMap] at hd
    obtain ⟨s, hs, hdoc⟩ := hd
    obtain ⟨qs, qe, day⟩ := s
    have hday : doc.published_at = day := by
      cases hresp : resp day with
      | none => rw [hresp] at hdoc; cases hdoc
      | some items =>
        rw [hresp] at hdoc
        exact processDayItems_published_at _ day items [] 0 doc hdoc
    obtain ⟨h1, h2, h3⟩ := dailyRanges_day_bounds start stop qs qe day hs
    rw [hday]
    have hD : 0 < daySecs := by decide
    have hfs : floorDayUtc start ≤ start ∧ start < floorDayUtc start + daySecs := by
      unfold floorDayUtc
      have := Nat.div_add_mod start daySecs
      have := Nat.mod_lt start hD
      omega
    have hfe : floorDayUtc stop ≤ stop := by
      unfold floorDayUtc
      have := Nat.div_add_mod stop daySecs
      omega
    exact ⟨h1, h2, h3, by omega, by omega⟩

/-- Witness for C4's amended theorem at the counterexample input: the day-0
document satisfies all amended bounds. -/
theorem fetchDocuments_day_buckets_witness :
    daySecs ∣ (0 : ℕ) ∧ floorDayUtc 43200 ≤ 0 ∧ (0 : ℕ) < floorDayUtc 108000 ∧
    (0 : ℕ) < 108000 ∧ 43200 < 0 + daySecs := by
  have h := fetchDocuments_day_buckets 864000 43200 108000 5
    (fun _ => some [⟨"u", "t"⟩]) ⟨"u", "t", "gdelt", 0⟩ (by decide)
  exact h

/-- C2: `save_url_harvest` returns `(0, true)` and leaves the store unchanged
when `(url, asset)` is already summarized or rejected; returns the existing
row's id with `true` and leaves the store unchanged when an inbox row with
that key exists (and the key is not summarized/rejected); and otherwise
appends exactly one new inbox row and returns its fresh id with `false`. -/
theorem saveUrlHarvest_dedupe (db : Db) (url asset : String)
    (source : Option String) (published_at : Option ℤ) (title : Option String)
    (freshId : ℕ) (nowTs : ℤ) :
    (((∃ r ∈ db.summarized, r.url = url ∧ r.asset = asset) ∨
      (∃ r ∈ db.rejections, r.url = url ∧ r.asset = asset)) →
      saveUrlHarvest db url asset source published_at title freshId nowTs =
        ((0, true), db)) ∧
    (¬ ((∃ r ∈ db.summarized, r.url = url ∧ r.asset = asset) ∨
        (∃ r ∈ db.rejections, r.url = url ∧ r.asset = asset)) →
      (∀ row, db.inbox.find?
          (fun r => decide (r.url = url ∧ r.asset = asset)) = some row →
        saveUrlHarvest db url asset source published_at title freshId nowTs =
          ((row.id, true), db)) ∧
      (db.inbox.find?
          (fun r => decide (r.url = url ∧ r.asset = asset)) = none →
        saveUrlHarvest db url asset source published_at title freshId nowTs =
          ((freshId, false),
            { db with inbox := db.inbox ++
              [⟨freshId, url, asset, source, published_at, title, nowTs⟩] }))) := by
  have hproc : (db.summarized.any
      (fun r => decide (r.url = url ∧ r.asset = asset)) = true) ↔
      ∃ r ∈ db.summarized, r.url = url ∧ r.asset = asset := by
    simp [List.any_eq_true]
  have hrej : (db.rejections.any
      (fun r => decide (r.url = url ∧ r.asset = asset)) = true) ↔
      ∃ r ∈ db.rejections, r.url = url ∧ r.asset = asset := by
    simp [List.any_eq_true]
  constructor
  · intro hdup
    unfold saveUrlHarvest
    by_cases hp : db.summarized.any
        (fun r => decide (r.url = url ∧ r.asset = asset)) = true
    · rw [if_pos hp]
    · have hr : db.rejections.any
          (fun r => decide (r.url = url ∧ r.asset = asset)) = true := by
        rcases hdup with hdup | hdup
        · exact absurd (hproc.mpr hdup) hp
        · exact hrej.mpr hdup
      rw [if_neg hp, if_pos hr]
  · intro hdup
    have hp : ¬ db.summarized.any
        (fun r => decide (r.url = url ∧ r.asset = asset)) = true :=
      fun ha => hdup (Or.inl (hproc.mp ha))
    have hr : ¬ db.rejections.any
        (fun r => decide (r.url = url ∧ r.asset = asset)) = true :=
      fun ha => hdup (Or.inr (hrej.mp ha))
    constructor
    · intro row hrow
      unfold saveUrlHarvest
      rw [if_neg hp, if_neg hr, hrow]
    · intro hnone
      unfold saveUrlHarvest
      rw [if_neg hp, if_neg hr, hnone]

/-- Witness for C2, dedupe across states: with `(U, BTC)` already summarized,
`save_url_harvest` returns `(0, true)` and creates no inbox row. -/
theorem saveUrlHarvest_dedupe_witness :
    saveUrlHarvest
      ⟨[⟨7, "U", "BTC", "s", none, "m", none, 0⟩], [], [], [], 8⟩
      "U" "BTC" none none none 9 0 =
      ((0, true), ⟨[⟨7, "U", "BTC", "s", none, "m", none, 0⟩], [], [], [], 8⟩) :=
  (saveUrlHarvest_dedupe
    ⟨[⟨7, "U", "BTC", "s", none, "m", none, 0⟩], [], [], [], 8⟩
    "U" "BTC" none none none 9 0).1
    (Or.inl ⟨⟨7, "U", "BTC", "s", none, "m", none, 0⟩, by decide, rfl, rfl⟩)

/-- C1 counterexample: when only the final inbox delete raises, the candidate
is counted as an error, yet the summary and vote inserts remain committed
(each repository call runs on its own auto-committing connection), so the
persisted state differs from the initial one while the inbox row survives. -/
theorem processCandidate_error_leaves_partial_state :
    ¬ ClaimCandidateAtomic ∧
    (processCandidate (fun op => decide (op = RepoOp.deleteInbox)) c1Db "BTC"
      c1Cand c1Ai "ensemble[m]" 0).2 = true ∧
    (processCandidate (fun op => decide (op = RepoOp.deleteInbox)) c1Db "BTC"
      c1Cand c1Ai "ensemble[m]" 0).1.summarized ≠ c1Db.summarized ∧
    (processCandidate (fun op => decide (op = RepoOp.deleteInbox)) c1Db "BTC"
      c1Cand c1Ai "ensemble[m]" 0).1.inbox = c1Db.inbox := by
  refine ⟨fun hcl => ?_, by decide, by decide, by decide⟩
  have hc := hcl (fun op => decide (op = RepoOp.deleteInbox)) c1Db "BTC"
    c1Cand c1Ai "ensemble[m]" 0 (by decide)
  revert hc
  decide

theorem saveVotesLoop_spec (fail : RepoOp → Bool) (asset url : String)
    (harvestId : ℕ) (articleId : Option ℕ) :
    ∀ (votes : List AiVote) (db : Db) (idx : ℕ),
      (saveVotesLoop fail asset url harvestId articleId db idx votes).1.summarized
        = db.summarized ∧
      (saveVotesLoop fail asset url harvestId articleId db idx votes).1.rejections
        = db.rejections ∧
      (saveVotesLoop fail asset url harvestId articleId db idx votes).1.inbox
        = db.inbox ∧
      (saveVotesLoop fail asset url harvestId articleId db idx votes).1.nextArticleId
        = db.nextArticleId ∧
      (∃ pre, (saveVotesLoop fail asset url harvestId articleId db idx votes).1.votes
        = db.votes ++ pre) ∧
      ((saveVotesLoop fail asset url harvestId articleId db idx votes).2 = false →
        (saveVotesLoop fail asset url harvestId articleId db idx votes).1.votes
          = db.votes ++ votes.map (mkVoteRow asset url harvestId articleId)) := by
  intro votes
  induction votes with
  | nil =>
    intro db idx
    simp [saveVotesLoop]
  | cons v rest ih =>
    intro db idx
    rw [saveVotesLoop]
    by_cases hf : fail (RepoOp.saveVote idx) = true
    · rw [if_pos hf]
      exact ⟨rfl, rfl, rfl, rfl, ⟨[], by simp⟩, fun hc => by cases hc⟩
    · rw [if_neg hf]
      obtain ⟨h1, h2, h3, h4, ⟨pre, h5⟩, h6⟩ :=
        ih { db with votes := db.votes ++ [mkVoteRow asset url harvestId articleId v] }
          (idx + 1)
      refine ⟨h1, h2, h3, h4, ⟨mkVoteRow asset url harvestId articleId v :: pre, ?_⟩, ?_⟩
      · rw [h5]; simp
      · intro herr
        rw [h6 herr]; simp

theorem finishCandidate_spec (fail : RepoOp → Bool) (db1 : Db)
    (articleId : Option ℕ) (asset : String) (h : Candidate) (ai : AiResult) :
    ((finishCandidate fail db1 articleId asset h ai).2 = false →
      (finishCandidate fail db1 articleId asset h ai).1.summarized
        = db1.summarized ∧
      (finishCandidate fail db1 articleId asset h ai).1.rejections
        = db1.rejections ∧
      (finishCandidate fail db1 articleId asset h ai).1.votes
        = db1.votes ++ ai.votes.map (mkVoteRow asset h.url h.id articleId) ∧
      (finishCandidate fail db1 articleId asset h ai).1.inbox
        = db1.inbox.filter (fun r => decide (r.id ≠ h.id))) ∧
    ((finishCandidate fail db1 articleId asset h ai).2 = true →
      (finishCandidate fail db1 articleId asset h ai).1.inbox = db1.inbox ∧
      (finishCandidate fail db1 articleId asset h ai).1.summarized
        = db1.summarized ∧
      (finishCandidate fail db1 articleId asset h ai).1.rejections
        = db1.rejections ∧
      (∃ v, (finishCandidate fail db1 articleId asset h ai).1.votes
        = db1.votes ++ v)) := by
  obtain ⟨h1, h2, h3, h4, ⟨pre, h5⟩, h6⟩ :=
    saveVotesLoop_spec fail asset h.url h.id articleId ai.votes db1 0
  unfold finishCandidate
  by_cases hv : (saveVotesLoop fail asset h.url h.id articleId db1
      0 ai.votes).2 = true
  · rw [if_pos hv]
    exact ⟨fun hc => by simp at hc, fun _ => ⟨h3, h1, h2, ⟨pre, h5⟩⟩⟩
  · rw [if_neg hv]
    by_cases hd : fail RepoOp.deleteInbox = true
    · rw [if_pos hd]
      exact ⟨fun hc => by simp at hc,
        fun _ => ⟨h3, h1, h2,
          ⟨ai.votes.map (mkVoteRow asset h.url h.id articleId),
           h6 (by simpa using hv)⟩⟩⟩
    · rw [if_neg hd]
      refine ⟨fun _ => ⟨h1, h2, h6 (by simpa using hv), ?_⟩,
        fun hc => by simp at hc⟩
      exact congrArg (fun l => l.filter (fun r => decide (r.id ≠ h.id))) h3

/-- C1 amended: with `dry_run=False`, when no repository call raises, the
candidate's effects all commit — exactly one of a `SummarizedArticle` insert
(majority-relevant) or a `Rejection` insert with reason `no_asset_relation`,
one `LlmVote` insert per per-client vote, and the deletion of the candidate's
inbox row — and the candidate is not counted as an error. When some call
raises, the candidate is counted as an error and processing continues, but
the effects already committed before the raising call remain persisted (each
repository call commits on its own connection): the tables only grow by some
prefix of the intended rows, and the inbox row is never deleted (so the
candidate is retried). -/
theorem processCandidate_effects (fail : RepoOp → Bool) (db : Db)
    (asset : String) (h : Candidate) (ai : AiResult) (modelName : String)
    (nowTs : ℤ) :
    ((processCandidate fail db asset h ai modelName nowTs).2 = false →
      (processCandidate fail db asset h ai modelName nowTs).1.summarized
        = db.summarized ++
          (if toBoolStrict ai.relevance = some true
           then [makeArticle h asset ai modelName nowTs db.nextArticleId]
           else []) ∧
      (processCandidate fail db asset h ai modelName nowTs).1.rejections
        = db.rejections ++
          (if toBoolStrict ai.relevance = some true then []
           else [⟨h.url, asset, "no_asset_relation", h.source, "summarize",
             some "ensemble"⟩]) ∧
      (processCandidate fail db asset h ai modelName nowTs).1.votes
        = db.votes ++ ai.votes.map (mkVoteRow asset h.url h.id
            (if toBoolStrict ai.relevance = some true
             then some db.nextArticleId else Option.none)) ∧
      (processCandidate fail db asset h ai modelName nowTs).1.inbox
        = db.inbox.filter (fun r => decide (r.id ≠ h.id))) ∧
    ((processCandidate fail db asset h ai modelName nowTs).2 = true →
      (processCandidate fail db asset h ai modelName nowTs).1.inbox = db.inbox ∧
      (∃ s, (processCandidate fail db asset h ai modelName nowTs).1.summarized
        = db.summarized ++ s) ∧
      (∃ r, (processCandidate fail db asset h ai modelName nowTs).1.rejections
        = db.rejections ++ r) ∧
      (∃ v, (processCandidate fail db asset h ai modelName nowTs).1.votes
        = db.votes ++ v)) := by
  unfold processCandidate
  by_cases hrel : toBoolStrict ai.relevance = some true
  · rw [if_pos hrel]
    by_cases hok : articleSentimentOk (ai.sentiment.map round2) = false
    · rw [if_pos hok]
      exact ⟨fun hc => by simp at hc,
        fun _ => ⟨rfl, ⟨[], by simp⟩, ⟨[], by simp⟩, ⟨[], by simp⟩⟩⟩
    · rw [if_neg hok]
      by_cases hs : fail RepoOp.saveSummary = true
      · rw [if_pos hs]
        exact ⟨fun hc => by simp at hc,
          fun _ => ⟨rfl, ⟨[], by simp⟩, ⟨[], by simp⟩, ⟨[], by simp⟩⟩⟩
      · rw [if_neg hs]
        obtain ⟨hsucc, herr⟩ := finishCandidate_spec fail
          { db with
            summarized := db.summarized ++
              [makeArticle h asset ai modelName nowTs db.nextArticleId],
            nextArticleId := db.nextArticleId + 1 }
          (some db.nextArticleId) asset h ai
        constructor
        · intro hc
          obtain ⟨e1, e2, e3, e4⟩ := hsucc hc
          refine ⟨?_, ?_, ?_, ?_⟩
          · rw [e1, if_pos hrel]
          · rw [e2, if_pos hrel]; simp
          · rw [e3, if_pos hrel]
          · rw [e4]
        · intro hc
          obtain ⟨i1, i2, i3, ⟨v, i4⟩⟩ := herr hc
          exact ⟨i1,
            ⟨[makeArticle h asset ai modelName nowTs db.nextArticleId], i2⟩,
            ⟨[], by rw [i3]; simp⟩, ⟨v, i4⟩⟩
  · rw [if_neg hrel]
    by_cases hr : fail RepoOp.saveRejection = true
    · rw [if_pos hr]
      exact ⟨fun hc => by simp at hc,
        fun _ => ⟨rfl, ⟨[], by simp⟩, ⟨[], by simp⟩, ⟨[], by simp⟩⟩⟩
    · rw [if_neg hr]
      obtain ⟨hsucc, herr⟩ := finishCandidate_spec fail
        { db with rejections := db.rejections ++
          [⟨h.url, asset, "no_asset_relation", h.source, "summarize",
            some "ensemble"⟩] }
        Option.none asset h ai
      constructor
      · intro hc
        obtain ⟨e1, e2, e3, e4⟩ := hsucc hc
        refine ⟨?_, ?_, ?_, ?_⟩
        · rw [e1, if_neg hrel]; simp
        · rw [e2, if_neg hrel]
        · rw [e3, if_neg hrel]
        · rw [e4]
      · intro hc
        obtain ⟨i1, i2, i3, ⟨v, i4⟩⟩ := herr hc
        exact ⟨i1, ⟨[], by rw [i2]; simp⟩,
          ⟨[⟨h.url, asset, "no_asset_relation", h.source, "summarize",
            some "ensemble"⟩], i3⟩, ⟨v, i4⟩⟩

/-- Witness for C1's amended theorem: a fully successful run on the concrete
scenario commits the summary, the vote, and the inbox delete. -/
theorem processCandidate_effects_witness :
    (processCandidate (fun _ => false) c1Db "BTC" c1Cand c1Ai "ensemble[m]"
      0).1.summarized =
      c1Db.summarized ++ [makeArticle c1Cand "BTC" c1Ai "ensemble[m]" 0 1] ∧
    (processCandidate (fun _ => false) c1Db "BTC" c1Cand c1Ai "ensemble[m]"
      0).1.inbox = [] := by
  have hx := (processCandidate_effects (fun _ => false) c1Db "BTC" c1Cand c1Ai
    "ensemble[m]" 0).1 (by decide)
  refine ⟨?_, ?_⟩
  · have h1 := hx.1
    rw [h1]
    decide
  · have h4 := hx.2.2.2
    rw [h4]
    decide

theorem lastN_length (n : ℕ) (xs : List α) :
    (lastN n xs).length = min n xs.length := by
  unfold lastN
  rw [List.length_drop]
  omega

theorem stepBuf_lastN (window : ℤ) (ys : List ℚ) (r : Option ℚ) :
    stepBuf window (lastN window.toNat ys) r
      = lastN window.toNat (ys ++ r.toList) := by
  have hlen := lastN_length window.toNat ys
  rcases r with _ | v
  · simp only [stepBuf, Option.toList_none, List.append_nil]
    by_cases hc : ((lastN window.toNat ys).length : ℤ) > window
    · rw [if_pos hc]
      have h0 : window < 0 := by
        by_contra hw
        push_neg at hw
        have hwn : (window.toNat : ℤ) = window := Int.toNat_of_nonneg hw
        omega
      have hz : lastN window.toNat ys = [] :=
        List.length_eq_zero.mp (by rw [hlen]; omega)
      rw [hz]
      rfl
    · rw [if_neg hc]
  · simp only [stepBuf, Option.toList_some]
    by_cases hw : 0 ≤ window
    · have hwn : (window.toNat : ℤ) = window := Int.toNat_of_nonneg hw
      by_cases hys : window.toNat ≤ ys.length
      · have hl : (lastN window.toNat ys).length = window.toNat := by
          rw [hlen]; omega
        by_cases hz : window.toNat = 0
        · have h1 : lastN window.toNat ys = [] :=
            List.length_eq_zero.mp (by omega)
          rw [h1]
          have hc : ((([] ++ [v] : List ℚ).length : ℤ) > window) := by
            simp; omega
          rw [if_pos hc]
          have h2 : lastN window.toNat (ys ++ [v]) = [] :=
            List.length_eq_zero.mp (by rw [lastN_length]; omega)
          rw [h2]
          rfl
        · have hc : (((lastN window.toNat ys ++ [v]).length : ℤ) > window) := by
            rw [List.length_append, hl]
            push_cast
            simp
            omega
          rw [if_pos hc]
          unfold lastN
          rw [List.length_append]
          rw [List.drop_append_of_le_length (by rw [List.length_drop]; omega)]
          rw [List.drop_drop]
          rw [List.drop_append_of_le_length (by simp; omega)]
          congr 2
          simp
          omega
      · have hLys : lastN window.toNat ys = ys := by
          unfold lastN
          have h1 : ys.length - window.toNat = 0 := by omega
          rw [h1, List.drop_zero]
        rw [hLys]
        have hc : ¬ (((ys ++ [v]).length : ℤ) > window) := by
          rw [List.length_append]
          push_cast
          simp
          omega
        rw [if_neg hc]
        unfold lastN
        rw [List.length_append]
        have h1 : ys.length + [v].length - window.toNat = 0 := by
          simp only [List.length_cons, List.length_nil]
          omega
        rw [h1, List.drop_zero]
    · push_neg at hw
      have hwn : window.toNat = 0 := Int.toNat_of_nonpos (by omega)
      rw [hwn]
      have h0 : lastN 0 ys = [] :=
        List.length_eq_zero.mp (by rw [lastN_length]; omega)
      rw [h0]
      have hc : ((([] ++ [v] : List ℚ).length : ℤ) > window) := by simp; omega
      rw [if_pos hc]
      have h1 : lastN 0 (ys ++ [v]) = [] :=
        List.length_eq_zero.mp (by rw [lastN_length]; omega)
      rw [h1]
      rfl

theorem foldl_stepBuf (window : ℤ) :
    ∀ (pre : List (Option ℚ)) (ys : List ℚ),
      pre.foldl (stepBuf window) (lastN window.toNat ys)
        = lastN window.toNat (ys ++ pre.filterMap id) := by
  intro pre
  induction pre with
  | nil => intro ys; simp
  | cons r rest ih =>
    intro ys
    rw [List.foldl_cons, stepBuf_lastN, ih (ys ++ r.toList)]
    congr 1
    rw [List.append_assoc]
    congr 1
    rcases r with _ | v <;> simp

theorem volSharpeGo_vol_get (sqrt : ℚ → ℚ) (window : ℤ) :
    ∀ (rets : List (Option ℚ)) (buf : List ℚ) (i : ℕ), i < rets.length →
      ((volSharpeGo sqrt window buf rets).1)[i]? =
        some (volCell sqrt ((rets.take (i + 1)).foldl (stepBuf window) buf)) := by
  intro rets
  induction rets with
  | nil => intro buf i hi; cases hi
  | cons r rest ih =>
    intro buf i hi
    rw [volSharpeGo]
    cases i with
    | zero =>
      simp [List.foldl_cons]
    | succ n =>
      rw [List.getElem?_cons_succ]
      rw [ih (stepBuf window buf r) n (by simpa using hi)]
      simp [List.foldl_cons]

theorem pvarianceQ_nonneg (xs : List ℚ) : 0 ≤ pvarianceQ xs := by
  unfold pvarianceQ
  apply div_nonneg
  · apply List.sum_nonneg
    intro x hx
    rw [List.mem_map] at hx
    obtain ⟨y, _, hy⟩ := hx
    rw [← hy]
    positivity
  · positivity

/-- C5 counterexample: two equal returns give a two-element buffer with
`pstdev = 0`; the code stores null (`sd if sd != 0 else None`) where the
claim demands `pstdev(buffer) = 0`. (Any square root sends the buffer's zero
variance to `0`, so the opaque-sqrt instance reflects the real one.) -/
theorem volSeries_zero_sd_null :
    ¬ ClaimVolPstdev ∧
    volSeries (fun _ => 0) 30 [some 1, some 1] = [Option.none, Option.none] ∧
    volBufferAt 30 [some 1, some 1] 1 = [1, 1] := by
  have hv : volSeries (fun _ => 0) 30 [some 1, some 1]
      = [Option.none, Option.none] := by
    norm_num [volSeries, volSharpeGo, volCell, stepBuf, pstdevQ]
  have hb : volBufferAt 30 [some 1, some 1] 1 = [1, 1] := by
    norm_num [volBufferAt, lastN, List.filterMap_cons]
  refine ⟨fun hcl => ?_, hv, hb⟩
  have hc := hcl (fun _ => 0) rfl 30 [some 1, some 1] 1 (by norm_num)
  rw [hv, hb] at hc
  simp [pstdevQ] at hc

/-- C5 amended: vol_30d at day `i` is `pstdev` of the trailing buffer of the
last `window` non-null returns when that buffer holds at least two values
*and* its standard deviation is non-zero (equivalently, its population
variance is non-zero), and null otherwise — a zero deviation is stored as
null, not `0`. -/
theorem volSeries_spec (sqrt : ℚ → ℚ)
    (hsqrt : ∀ x : ℚ, 0 ≤ x → (sqrt x = 0 ↔ x = 0))
    (window : ℤ) (rets : List (Option ℚ)) (i : ℕ) (hi : i < rets.length) :
    (volSeries sqrt window rets)[i]? =
      some (if 2 ≤ (volBufferAt window rets i).length then
              (if pvarianceQ (volBufferAt window rets i) = 0 then Option.none
               else some (pstdevQ sqrt (volBufferAt window rets i)))
            else Option.none) := by
  have hget := volSharpeGo_vol_get sqrt window rets [] i hi
  have hbuf : (rets.take (i + 1)).foldl (stepBuf window) ([] : List ℚ)
      = volBufferAt window rets i := by
    have h0 : ([] : List ℚ) = lastN window.toNat [] := by simp [lastN]
    rw [h0, foldl_stepBuf]
    unfold volBufferAt
    simp
  unfold volSeries
  rw [hget, hbuf]
  congr 1
  unfold volCell
  by_cases h2 : 2 ≤ (volBufferAt window rets i).length
  · rw [if_pos h2, if_pos h2]
    by_cases hz : pvarianceQ (volBufferAt window rets i) = 0
    · have hsd : pstdevQ sqrt (volBufferAt window rets i) = 0 := by
        unfold pstdevQ
        rw [hz]
        exact (hsqrt 0 le_rfl).mpr rfl
      rw [if_pos hz, if_neg (by simp [hsd])]
    · have hsd : pstdevQ sqrt (volBufferAt window rets i) ≠ 0 := by
        unfold pstdevQ
        intro hc
        exact hz ((hsqrt _ (pvarianceQ_nonneg _)).mp hc)
      rw [if_neg hz, if_pos hsd]
  · rw [if_neg h2, if_neg h2]

/-- Witness for C5's amended theorem: returns `1, 2` give buffer `[1, 2]`
with non-zero variance, so vol_30d is `pstdev` of the buffer. -/
theorem volSeries_spec_witness :
    (volSeries (fun x => x) 30 [some 1, some 2])[1]? =
      some (if 2 ≤ (volBufferAt 30 [some 1, some 2] 1).length then
              (if pvarianceQ (volBufferAt 30 [some 1, some 2] 1) = 0
               then Option.none
               else some (pstdevQ (fun x => x)
                 (volBufferAt 30 [some 1, some 2] 1)))
            else Option.none) :=
  volSeries_spec (fun x => x) (fun x _ => Iff.rfl) 30 [some 1, some 2] 1
    (by norm_num)

/-- C7: per day, `p_alpha = (1-α)·exp_return_norm + α·sentiment_norm` when
both normalized inputs are non-null, degenerates to the non-null one when
exactly one is null, and is null when both are. -/
theorem pAlphaSeries_cases (alpha : ℚ) (ern sn : List (Option ℚ)) (i : ℕ)
    (h1 : i < ern.length) (h2 : i < sn.length) :
    (ern[i] = Option.none → sn[i] = Option.none →
      (pAlphaSeries alpha ern sn)[i]? = some Option.none) ∧
    (∀ y : ℚ, ern[i] = Option.none → sn[i] = some y →
      (pAlphaSeries alpha ern sn)[i]? = some (some y)) ∧
    (∀ x : ℚ, ern[i] = some x → sn[i] = Option.none →
      (pAlphaSeries alpha ern sn)[i]? = some (some x)) ∧
    (∀ x y : ℚ, ern[i] = some x → sn[i] = some y →
      (pAlphaSeries alpha ern sn)[i]? = some
        (some ((1 - alpha) * x + alpha * y))) := by
  have hlen : i < (pAlphaSeries alpha ern sn).length := by
    unfold pAlphaSeries
    rw [List.length_zipWith]
    omega
  have hz : (pAlphaSeries alpha ern sn)[i]? =
      some ((fun er s =>
        match er, s with
        | Option.none, Option.none => Option.none
        | Option.none, some y => some y
        | some x, Option.none => some x
        | some x, some y => some ((1 - alpha) * x + alpha * y)) ern[i] sn[i]) := by
    unfold pAlphaSeries
    rw [List.getElem?_eq_getElem (by rw [List.length_zipWith]; omega)]
    congr 1
    exact List.getElem_zipWith ..
  refine ⟨fun he hs => ?_, fun y he hs => ?_, fun x he hs => ?_,
    fun x y he hs => ?_⟩ <;> rw [hz, he, hs]

/-- Witness for C7, the factor null-safety scenario: with
`exp_return_norm = [none]` and `sentiment_norm = [0.3]`, `p_alpha` carries
the sentiment branch. -/
theorem pAlphaSeries_cases_witness :
    (pAlphaSeries (1/4) [Option.none] [some (3/10)])[0]? =
      some (some (3/10)) :=
  (pAlphaSeries_cases (1/4) [Option.none] [some (3/10)] 0 (by norm_num)
    (by norm_num)).2.1 (3/10) rfl rfl

/-- C6 counterexample: `execute` accepts `alpha = 2` without raising and
emits a factor row carrying blend weight 2 ∉ [0, 1] — the factor
computation's alpha parameter is not validated. -/
theorem executeFactors_alpha_unvalidated :
    executeFactors (fun _ => 0) (fun b _ => b) defaultFactorsConfig "BTC"
      [(0, Option.none)] (fun _ => Option.none) (fun _ => Option.none)
      (fun _ => 0) 2 =
      Except.ok [⟨"BTC", 0, Option.none, Option.none, Option.none,
        Option.none, Option.none, Option.none, Option.none, 2, Option.none,
        Option.none⟩] ∧
    ¬ ClaimAlphaValidated := by
  refine ⟨rfl, fun hcl => ?_⟩
  have hr := hcl (fun _ => 0) (fun b _ => b) defaultFactorsConfig "BTC"
    [(0, Option.none)] (fun _ => Option.none) (fun _ => Option.none)
    (fun _ => 0) 2
    [⟨"BTC", 0, Option.none, Option.none, Option.none, Option.none,
      Option.none, Option.none, Option.none, 2, Option.none, Option.none⟩]
    rfl
    ⟨"BTC", 0, Option.none, Option.none, Option.none, Option.none,
      Option.none, Option.none, Option.none, 2, Option.none, Option.none⟩
    (by decide)
  exact absurd hr.2 (by norm_num)

/-- C6 amended: the domain value objects do validate and fail loudly —
`SentimentDecision` requires score ∈ [-1, 1], `RelevanceDecision` score ∈
[0, 1], `SummarizedArticle` a non-null sentiment ∈ [-1, 1], `POmegaScore`
ω ∈ [0, 1] — but the factor computation's `alpha` is not validated:
`execute` passes any `alpha` through to every emitted row unchecked. -/
theorem rangeValidation_spec :
    (∀ (l : String) (s : ℚ) (c : Option ℚ) (su : Option String) (m : String),
      (∃ d, mkSentimentDecision l s c su m = Except.ok d) ↔
        -1 ≤ s ∧ s ≤ 1) ∧
    (∀ (ir : Bool) (s : ℚ) (re m : String),
      (∃ d, mkRelevanceDecision ir s re m = Except.ok d) ↔ 0 ≤ s ∧ s ≤ 1) ∧
    (∀ (u su a : String) (so : Option String) (m : String) (s : ℚ)
      (p ig : Option ℤ),
      (∃ d, mkSummarizedArticleModel u su a so m (some s) p ig = Except.ok d)
        ↔ -1 ≤ s ∧ s ≤ 1) ∧
    (∀ q s ω iv : ℚ,
      (∃ d, mkPOmegaScore q s ω iv = Except.ok d) ↔ 0 ≤ ω ∧ ω ≤ 1) ∧
    (∀ (sqrt : ℚ → ℚ) (pw : ℚ → ℚ → ℚ) (cfg : FactorsConfig) (asset : String)
      (returns : List (ℤ × Option ℚ))
      (sentMap sentWeightedMap : ℤ → Option ℚ) (statsMap : ℤ → ℕ)
      (alpha : ℚ) (rows : List FactorsRow),
      executeFactors sqrt pw cfg asset returns sentMap sentWeightedMap
        statsMap alpha = Except.ok rows →
      ∀ row ∈ rows, row.alpha = alpha) := by
  refine ⟨fun l s c su m => ?_, fun ir s re m => ?_,
    fun u su a so m s p ig => ?_, fun q s ω iv => ?_,
    fun sqrt pw cfg asset returns sentMap sentWeightedMap statsMap alpha
      rows hok row hrow => ?_⟩
  · unfold mkSentimentDecision
    by_cases h : -1 ≤ s ∧ s ≤ 1
    · rw [if_pos h]; exact iff_of_true ⟨_, rfl⟩ h
    · rw [if_neg h]
      exact iff_of_false (fun ⟨d, hd⟩ => by cases hd) h
  · unfold mkRelevanceDecision
    by_cases h : 0 ≤ s ∧ s ≤ 1
    · rw [if_pos h]; exact iff_of_true ⟨_, rfl⟩ h
    · rw [if_neg h]
      exact iff_of_false (fun ⟨d, hd⟩ => by cases hd) h
  · unfold mkSummarizedArticleModel articleSentimentOk
    by_cases h : -1 ≤ s ∧ s ≤ 1
    · rw [if_pos (by simpa using h)]; exact iff_of_true ⟨_, rfl⟩ h
    · rw [if_neg (by simpa using h)]
      exact iff_of_false (fun ⟨d, hd⟩ => by cases hd) h
  · unfold mkPOmegaScore
    by_cases h : 0 ≤ ω ∧ ω ≤ 1
    · rw [if_pos h]; exact iff_of_true ⟨_, rfl⟩ h
    · rw [if_neg h]
      exact iff_of_false (fun ⟨d, hd⟩ => by cases hd) h
  · unfold executeFactors at hok
    by_cases he : cfg.ema_len ≤ 0
    · rw [if_pos he] at hok; cases hok
    · rw [if_neg he] at hok
      injection hok with hok
      subst hok
      unfold executeFactorsRows at hrow
      rw [List.mem_map] at hrow
      obtain ⟨i, _, hi⟩ := hrow
      rw [← hi]

/-- Witness for C6's amended theorem: `POmegaScore` accepts ω = 1/2 and
rejects nothing in range, while a default-config `execute` run with
alpha = 2 emits a row with alpha = 2. -/
theorem rangeValidation_spec_witness :
    (∃ d, mkPOmegaScore 1 0 (1/2) 0 = Except.ok d) ∧
    (⟨"BTC", 0, Option.none, Option.none, Option.none, Option.none,
      Option.none, Option.none, Option.none, 2, Option.none,
      Option.none⟩ : FactorsRow).alpha = 2 := by
  constructor
  · exact (rangeValidation_spec.2.2.2.1 1 0 (1/2) 0).mpr (by norm_num)
  · exact rangeValidation_spec.2.2.2.2 (fun _ => 0) (fun b _ => b)
      defaultFactorsConfig "BTC" [(0, Option.none)] (fun _ => Option.none)
      (fun _ => Option.none) (fun _ => 0) 2
      [⟨"BTC", 0, Option.none, Option.none, Option.none, Option.none,
        Option.none, Option.none, Option.none, 2, Option.none, Option.none⟩]
      rfl
      ⟨"BTC", 0, Option.none, Option.none, Option.none, Option.none,
        Option.none, Option.none, Option.none, 2, Option.none, Option.none⟩
      (by decide)

end Rrp
